import Mathlib

/-!
Verification development for the code_wiz_2000 repository: a phased
commitment registry (the on-chain contract) together with its Python
deployment and interaction shim (src/main.py).

The Solidity contract Code_wiz_2000.sol is not part of the repository
sources; only the Python shim that deploys and calls it is. The registry
engine below is therefore modelled from the specification (sections 3, 4,
7 and 8 of spec.md), while the constants, transaction construction and
receipt handling of the shim are embedded from src/main.py directly.
-/

/-- Participant, treasury and controller identities, modelled as opaque
naturals. -/
abbrev Address : Type := Nat

/-- Opaque fixed-size commitment digest, modelled as a natural. -/
abbrev CommitHash : Type := Nat

/-- Modelled from the spec: RegistryConfig, the immutable configuration of
the registry fixed at deployment (section 3 of spec.md). The contract
itself is missing from src/. -/
structure RegistryConfig where
  treasury : Address
  phaseDurationSeconds : Nat
  registrationFee : Nat
  controller : Address
deriving DecidableEq

/-- Modelled from the spec: CommitmentRecord, one fee-paying commitment of
one participant in one phase (section 3 of spec.md). -/
structure CommitmentRecord where
  participant : Address
  commitmentHash : CommitHash
  phaseIndex : Nat
  paidAmount : Nat
deriving DecidableEq

/-- Modelled from the spec: Phase, a discrete registration epoch. The
commitments mapping is an association list from participant address to
CommitmentRecord; registrantCount is derived as its length. -/
structure Phase where
  index : Nat
  startTimestamp : Nat
  sealed : Bool
  commitments : List (Address × CommitmentRecord)
deriving DecidableEq

/-- Modelled from the spec: the Registry root object, holding the config,
the current phase index, all phase records (position i of the list is the
phase with index i) and the running total forwarded to the treasury. -/
structure Registry where
  config : RegistryConfig
  currentPhaseIndex : Nat
  phases : List Phase
  treasuryBalanceForwarded : Nat
deriving DecidableEq

/-- Modelled from the spec: the error taxonomy of section 7 of spec.md. -/
inductive RegistryError where
  | Unauthorized
  | IncorrectFee
  | DuplicateRegistration
  | PhaseSealed
  | PhaseNotYetDue
deriving DecidableEq

/-- Lookup of a participant address in a commitments association list. -/
def lookupAddr : List (Address × CommitmentRecord) → Address → Option CommitmentRecord
  | [], _ => none
  | (b, r) :: t, a => if b = a then some r else lookupAddr t a

/-- Number of records a participant address owns in a commitments list. -/
def countAddr : List (Address × CommitmentRecord) → Address → Nat
  | [], _ => 0
  | (b, _) :: t, a => (if b = a then 1 else 0) + countAddr t a

/-- The phase currently open, i.e. the phase record at position
currentPhaseIndex; total with a junk default that well-formed states never
reach. -/
def Registry.currentPhase (reg : Registry) : Phase :=
  (reg.phases[reg.currentPhaseIndex]?).getD { index := 0, startTimestamp := 0, sealed := false, commitments := [] }

/-- Modelled from the spec: creation of the registry at deployment time,
with currentPhaseIndex = 0 and phase 0 started at creation time
(Lifecycle, section 3 of spec.md). -/
def initRegistry (treasury controller : Address) (phaseDuration fee creationTime : Nat) : Registry :=
  { config := { treasury := treasury, phaseDurationSeconds := phaseDuration, registrationFee := fee, controller := controller }
    currentPhaseIndex := 0
    phases := [{ index := 0, startTimestamp := creationTime, sealed := false, commitments := [] }]
    treasuryBalanceForwarded := 0 }

/-- State transition applied by a successful registerCommitment: insert the
record into the current phase and forward the paid amount to the treasury
in the same atomic step. -/
def registerEffect (reg : Registry) (participant : Address) (h : CommitHash) (paid : Nat) : Registry :=
  { reg with
    phases := reg.phases.set reg.currentPhaseIndex
      { reg.currentPhase with
        commitments := reg.currentPhase.commitments ++
          [(participant, { participant := participant, commitmentHash := h, phaseIndex := reg.currentPhaseIndex, paidAmount := paid })] }
    treasuryBalanceForwarded := reg.treasuryBalanceForwarded + paid }

/-- Modelled from the spec: registerCommitment (section 4.1 of spec.md).
Checks the exact fee, the open status of the current phase, and absence of
a prior commitment by the participant; on success inserts the record and
forwards the fee atomically. The spec fixes no order among the three
precondition checks; the fee check is performed first here. -/
def registerCommitment (reg : Registry) (participant : Address) (h : CommitHash) (paid : Nat) : Except RegistryError Registry :=
  if paid ≠ reg.config.registrationFee then .error .IncorrectFee
  else if reg.currentPhase.sealed then .error .PhaseSealed
  else if (lookupAddr reg.currentPhase.commitments participant).isSome then .error .DuplicateRegistration
  else .ok (registerEffect reg participant h paid)

/-- State transition applied by a successful sealCurrentPhase: mark the
current phase sealed and open phase currentPhaseIndex + 1 with a fresh
start timestamp. -/
def sealEffect (reg : Registry) (now : Nat) : Registry :=
  { reg with
    currentPhaseIndex := reg.currentPhaseIndex + 1
    phases := (reg.phases.set reg.currentPhaseIndex { reg.currentPhase with sealed := true })
      ++ [{ index := reg.currentPhaseIndex + 1, startTimestamp := now, sealed := false, commitments := [] }] }

/-- Modelled from the spec: sealCurrentPhase (section 4.1 of spec.md).
Only the controller may seal, and only once phaseDurationSeconds have
elapsed since the current phase started; the authorization check comes
first. -/
def sealCurrentPhase (reg : Registry) (caller : Address) (now : Nat) : Except RegistryError Registry :=
  if caller ≠ reg.config.controller then .error .Unauthorized
  else if now < reg.currentPhase.startTimestamp + reg.config.phaseDurationSeconds then .error .PhaseNotYetDue
  else .ok (sealEffect reg now)

/-- Modelled from the spec: getCommitment (section 4.1 of spec.md), a pure
read returning the stored hash or an explicit not-present result. -/
def getCommitment (reg : Registry) (p : Nat) (a : Address) : Option CommitHash :=
  match reg.phases[p]? with
  | none => none
  | some ph => (lookupAddr ph.commitments a).map (fun r => r.commitmentHash)

/-- Modelled from the spec: getPhaseRegistrantCount (section 4.1 of
spec.md), a pure read returning 0 for phases with no registrants,
including phase indices not yet created. -/
def getPhaseRegistrantCount (reg : Registry) (p : Nat) : Nat :=
  match reg.phases[p]? with
  | none => 0
  | some ph => ph.commitments.length

/-- A mutating engine operation, as submitted by an external caller. -/
inductive RegOp where
  | register (participant : Address) (h : CommitHash) (paid : Nat)
  | sealPhase (caller : Address) (now : Nat)
deriving DecidableEq

/-- Transactional semantics of a submitted mutating operation: a rejected
operation commits no partial state (section 5 of spec.md). -/
def orKeep (reg : Registry) : Except RegistryError Registry → Registry
  | .ok r => r
  | .error _ => reg

/-- Apply one engine operation to the registry state. -/
def applyOp (reg : Registry) : RegOp → Registry
  | .register p h a => orKeep reg (registerCommitment reg p h a)
  | .sealPhase c t => orKeep reg (sealCurrentPhase reg c t)

/-- Total registrant count over all phases of the registry. -/
def totalRegistrants (reg : Registry) : Nat :=
  (reg.phases.map (fun ph => ph.commitments.length)).sum

/-- Sum of the paid amounts of every commitment record in the registry. -/
def sumPaid (reg : Registry) : Nat :=
  (reg.phases.map (fun ph => (ph.commitments.map (fun pr => pr.2.paidAmount)).sum)).sum

/-- Well-formedness invariant of a registry state: the phase list has
exactly currentPhaseIndex + 1 entries, the current phase is open, no
address owns two records in one phase, every record paid exactly the
registration fee, and the forwarded total equals the fees collected. -/
def RegistryWF (reg : Registry) : Prop :=
  reg.phases.length = reg.currentPhaseIndex + 1 ∧
  reg.currentPhase.sealed = false ∧
  (∀ ph ∈ reg.phases, ∀ a, countAddr ph.commitments a ≤ 1) ∧
  (∀ ph ∈ reg.phases, ∀ pr ∈ ph.commitments, pr.2.paidAmount = reg.config.registrationFee) ∧
  reg.treasuryBalanceForwarded = totalRegistrants reg * reg.config.registrationFee ∧
  reg.treasuryBalanceForwarded = sumPaid reg

/-- Registry states reachable from deployment by engine operations. -/
inductive RegReachable : Registry → Prop
  | init (t c d f time : Nat) : RegReachable (initRegistry t c d f time)
  | step (reg : Registry) (op : RegOp) : RegReachable reg → RegReachable (applyOp reg op)

/-- A small concrete registry for exercising the theorems: treasury 7,
controller 3, phase duration 10, registration fee 5, created at time 0. -/
def demoReg : Registry := initRegistry 7 3 10 5 0

/-- The demo registry after participant 4 registers commitment 9 paying
the exact fee. -/
def demoReg1 : Registry := applyOp demoReg (RegOp.register 4 9 5)

/-- The demo registry after the controller additionally seals phase 0 at
time 10. -/
def demoReg2 : Registry := applyOp demoReg1 (RegOp.sealPhase 3 10)

/-! Embedding of the Python shim, src/main.py. -/

/-- Registration fee in wei, src/main.py line 35. -/
def REGISTRATION_FEE_WEI : Nat := 1000000000000000

/-- Gas limit for registerCommitment transactions, src/main.py line 43. -/
def REGISTER_GAS_LIMIT : Nat := 300000

/-- Sample commitment hash used by the demo path, src/main.py line 37. -/
def SAMPLE_COMMITMENT_HEX : String :=
  "0x8f4e2a9c1b7d3f6e0a5c8b2d9f1e4a7c0b3d6e9f2a5c8b1d4e7a0c3f6b9d2e5a8"

/-- The fields of a registerCommitment transaction that the shim
determines itself (value and gas; sender and nonce come from the
environment). -/
structure RegisterTxFields where
  value : Nat
  gas : Nat
deriving DecidableEq

/-- Transaction built by register_commitment, src/main.py lines 170 to
177: the attached payment is exactly the value_wei argument. -/
def register_commitment_tx (_commitment_hex : String) (value_wei : Nat) : RegisterTxFields :=
  { value := value_wei, gas := REGISTER_GAS_LIMIT }

/-- The registerCommitment transaction built by the --register CLI path,
src/main.py lines 341 to 344: value_wei is REGISTRATION_FEE_WEI. -/
def main_register_tx (commitment_hex : String) : RegisterTxFields :=
  register_commitment_tx commitment_hex REGISTRATION_FEE_WEI

/-- The registerCommitment transaction built by the deploy-and-demo path,
src/main.py lines 283 to 290: value_wei is REGISTRATION_FEE_WEI. -/
def demo_register_tx : RegisterTxFields :=
  register_commitment_tx SAMPLE_COMMITMENT_HEX REGISTRATION_FEE_WEI

/-- Transaction receipt as consumed by the shim: its status and, for a
deployment, the optional created contract address. -/
structure TxReceipt where
  status : Nat
  contractAddress : Option Address
deriving DecidableEq

/-- Python exceptions raised by the receipt-handling code of the shim. -/
inductive PyError where
  | RuntimeError (msg : String)
  | AssertionError
deriving DecidableEq

/-- Receipt-handling tail of deploy, src/main.py lines 139 to 145: raise
RuntimeError when the receipt status is not 1, assert that the contract
address is present, print and return the address. -/
def deploy_receipt_result (receipt : TxReceipt) : Except PyError Address :=
  if receipt.status ≠ 1 then .error (.RuntimeError ("Deployment transaction reverted"))
  else
    match receipt.contractAddress with
    | none => .error .AssertionError
    | some addr => .ok addr

/-- Receipt-handling tail of register_commitment, src/main.py lines 181
to 183: raise RuntimeError when the receipt status is not 1, return the
receipt otherwise. -/
def register_commitment_receipt_result (receipt : TxReceipt) : Except PyError TxReceipt :=
  if receipt.status ≠ 1 then .error (.RuntimeError ("registerCommitment reverted"))
  else .ok receipt

/-- Receipt-handling tail of seal_current_phase, src/main.py lines 208 to
210: raise RuntimeError when the receipt status is not 1, return the
receipt otherwise. -/
def seal_current_phase_receipt_result (receipt : TxReceipt) : Except PyError TxReceipt :=
  if receipt.status ≠ 1 then .error (.RuntimeError ("sealCurrentPhase reverted"))
  else .ok receipt

/-! Helper lemmas about the commitments association list. -/

theorem lookupAddr_append_none {l : List (Address × CommitmentRecord)} {a : Address}
    (h : lookupAddr l a = none) (m : List (Address × CommitmentRecord)) :
    lookupAddr (l ++ m) a = lookupAddr m a := by
  induction l with
  | nil => rfl
  | cons hd t ih =>
    obtain ⟨b, r⟩ := hd
    simp only [lookupAddr] at h ⊢
    by_cases hb : b = a
    · simp [hb] at h
    · simpa [hb] using ih (by simpa [hb] using h)

theorem lookupAddr_append_some {l : List (Address × CommitmentRecord)} {a : Address}
    {r : CommitmentRecord} (h : lookupAddr l a = some r) (m : List (Address × CommitmentRecord)) :
    lookupAddr (l ++ m) a = some r := by
  induction l with
  | nil => simp [lookupAddr] at h
  | cons hd t ih =>
    obtain ⟨b, r0⟩ := hd
    simp only [lookupAddr] at h ⊢
    by_cases hb : b = a
    · simpa [hb] using (by simpa [hb] using h : some r0 = some r)
    · simpa [hb] using ih (by simpa [hb] using h)

theorem lookupAddr_mem {l : List (Address × CommitmentRecord)} {a : Address}
    {r : CommitmentRecord} (h : lookupAddr l a = some r) : (a, r) ∈ l := by
  induction l with
  | nil => simp [lookupAddr] at h
  | cons hd t ih =>
    obtain ⟨b, r0⟩ := hd
    simp only [lookupAddr] at h
    by_cases hb : b = a
    · have : r0 = r := by simpa [hb] using h
      subst hb; subst this; exact List.mem_cons_self _ _
    · exact List.mem_cons_of_mem _ (ih (by simpa [hb] using h))

theorem countAddr_append (l m : List (Address × CommitmentRecord)) (a : Address) :
    countAddr (l ++ m) a = countAddr l a + countAddr m a := by
  induction l with
  | nil => simp [countAddr]
  | cons hd t ih =>
    obtain ⟨b, r⟩ := hd
    simp only [countAddr, List.cons_append, List.append_eq, ih]
    omega

theorem countAddr_eq_zero_of_lookup_none {l : List (Address × CommitmentRecord)} {a : Address}
    (h : lookupAddr l a = none) : countAddr l a = 0 := by
  induction l with
  | nil => rfl
  | cons hd t ih =>
    obtain ⟨b, r⟩ := hd
    simp only [lookupAddr] at h
    by_cases hb : b = a
    · simp [hb] at h
    · simp only [countAddr, hb, if_false, ih (by simpa [hb] using h)]

theorem countAddr_pos_of_mem {l : List (Address × CommitmentRecord)} {a : Address}
    {r : CommitmentRecord} (h : (a, r) ∈ l) : 1 ≤ countAddr l a := by
  induction l with
  | nil => simp at h
  | cons hd t ih =>
    obtain ⟨b, r0⟩ := hd
    rcases List.mem_cons.mp h with heq | hmem
    · cases heq
      have h1 : countAddr ((a, r) :: t) a = 1 + countAddr t a := by
        simp [countAddr]
      omega
    · have := ih hmem
      simp only [countAddr]
      omega

theorem lookupAddr_of_mem_of_count_le_one {l : List (Address × CommitmentRecord)} {a : Address}
    {r : CommitmentRecord} (hmem : (a, r) ∈ l) (hc : countAddr l a ≤ 1) :
    lookupAddr l a = some r := by
  induction l with
  | nil => simp at hmem
  | cons hd t ih =>
    obtain ⟨b, r0⟩ := hd
    rcases List.mem_cons.mp hmem with heq | htail
    · cases heq
      simp [lookupAddr]
    · by_cases hb : b = a
      · exfalso
        have h1 := countAddr_pos_of_mem htail
        simp only [countAddr, hb, if_true] at hc
        omega
      · have hc2 : countAddr t a ≤ 1 := by
          simp only [countAddr, hb, if_false] at hc
          omega
        simpa [lookupAddr, hb] using ih htail hc2

theorem lookupAddr_none_of_not_mem {l : List (Address × CommitmentRecord)} {a : Address}
    (h : ∀ r, (a, r) ∉ l) : lookupAddr l a = none := by
  induction l with
  | nil => rfl
  | cons hd t ih =>
    obtain ⟨b, r0⟩ := hd
    by_cases hb : b = a
    · exact absurd (hb ▸ List.mem_cons_self (b, r0) t) (hb ▸ h r0)
    · simp only [lookupAddr, hb, if_false]
      exact ih (fun r hr => h r (List.mem_cons_of_mem _ hr))

/-- Additive form of the effect of List.set on a mapped sum. -/
theorem sum_map_set {α : Type} (f : α → Nat) (l : List α) (i : Nat) (x : α) (h : i < l.length) :
    ((l.set i x).map f).sum + f (l.get ⟨i, h⟩) = (l.map f).sum + f x := by
  induction l generalizing i with
  | nil => simp at h
  | cons hd t ih =>
    cases i with
    | zero => simp [List.set]; omega
    | succ j =>
      have hj : j < t.length := by simpa using h
      have := ih j hj
      simp only [List.set, List.map_cons, List.sum_cons, List.get]
      omega

/-! Characterization of the two mutating operations. -/

theorem registerCommitment_incorrectFee {reg : Registry} {p : Address} {h : CommitHash} {a : Nat}
    (hne : a ≠ reg.config.registrationFee) :
    registerCommitment reg p h a = .error .IncorrectFee := by
  unfold registerCommitment
  simp [hne]

theorem registerCommitment_duplicate {reg : Registry} {p : Address} {h : CommitHash} {a : Nat}
    (hfee : a = reg.config.registrationFee) (hop : reg.currentPhase.sealed = false)
    (hdup : (lookupAddr reg.currentPhase.commitments p).isSome) :
    registerCommitment reg p h a = .error .DuplicateRegistration := by
  unfold registerCommitment
  simp [hfee, hop, hdup]

theorem registerCommitment_ok {reg : Registry} {p : Address} {h : CommitHash} {a : Nat}
    (hfee : a = reg.config.registrationFee) (hop : reg.currentPhase.sealed = false)
    (hnew : lookupAddr reg.currentPhase.commitments p = none) :
    registerCommitment reg p h a = .ok (registerEffect reg p h a) := by
  unfold registerCommitment
  simp [hfee, hop, hnew]

theorem registerCommitment_ok_inv {reg reg' : Registry} {p : Address} {h : CommitHash} {a : Nat}
    (hok : registerCommitment reg p h a = .ok reg') :
    a = reg.config.registrationFee ∧ reg.currentPhase.sealed = false ∧
    lookupAddr reg.currentPhase.commitments p = none ∧ reg' = registerEffect reg p h a := by
  unfold registerCommitment at hok
  split at hok
  · simp at hok
  · split at hok
    · simp at hok
    · split at hok
      · simp at hok
      · rename_i h1 h2 h3
        injection hok with h4
        exact ⟨by omega, by simpa using h2, by simpa using h3, h4.symm⟩

theorem sealCurrentPhase_unauthorized {reg : Registry} {c t : Nat}
    (h : c ≠ reg.config.controller) :
    sealCurrentPhase reg c t = .error .Unauthorized := by
  unfold sealCurrentPhase
  simp [h]

theorem sealCurrentPhase_notYetDue {reg : Registry} {c t : Nat}
    (hc : c = reg.config.controller)
    (ht : t < reg.currentPhase.startTimestamp + reg.config.phaseDurationSeconds) :
    sealCurrentPhase reg c t = .error .PhaseNotYetDue := by
  unfold sealCurrentPhase
  simp [hc, ht]

theorem sealCurrentPhase_ok {reg : Registry} {c t : Nat}
    (hc : c = reg.config.controller)
    (ht : reg.currentPhase.startTimestamp + reg.config.phaseDurationSeconds ≤ t) :
    sealCurrentPhase reg c t = .ok (sealEffect reg t) := by
  unfold sealCurrentPhase
  simp [hc, Nat.not_lt.mpr ht]

theorem sealCurrentPhase_ok_inv {reg reg' : Registry} {c t : Nat}
    (hok : sealCurrentPhase reg c t = .ok reg') :
    c = reg.config.controller ∧
    reg.currentPhase.startTimestamp + reg.config.phaseDurationSeconds ≤ t ∧
    reg' = sealEffect reg t := by
  unfold sealCurrentPhase at hok
  split at hok
  · simp at hok
  · split at hok
    · simp at hok
    · rename_i h1 h2
      injection hok with h3
      exact ⟨not_not.mp h1, Nat.not_lt.mp h2, h3.symm⟩

theorem applyOp_register_of_ok {reg reg' : Registry} {p : Address} {h : CommitHash} {a : Nat}
    (hok : registerCommitment reg p h a = .ok reg') :
    applyOp reg (.register p h a) = reg' := by
  simp [applyOp, hok, orKeep]

theorem applyOp_register_of_err {reg : Registry} {p : Address} {h : CommitHash} {a : Nat}
    {e : RegistryError} (herr : registerCommitment reg p h a = .error e) :
    applyOp reg (.register p h a) = reg := by
  simp [applyOp, herr, orKeep]

theorem applyOp_seal_of_ok {reg reg' : Registry} {c t : Nat}
    (hok : sealCurrentPhase reg c t = .ok reg') :
    applyOp reg (.sealPhase c t) = reg' := by
  simp [applyOp, hok, orKeep]

theorem applyOp_seal_of_err {reg : Registry} {c t : Nat} {e : RegistryError}
    (herr : sealCurrentPhase reg c t = .error e) :
    applyOp reg (.sealPhase c t) = reg := by
  simp [applyOp, herr, orKeep]

/-! Structural lemmas about the current phase. -/

theorem currentPhase_eq_of_getElem {reg : Registry} {x : Phase}
    (h : reg.phases[reg.currentPhaseIndex]? = some x) : reg.currentPhase = x := by
  simp [Registry.currentPhase, h]

theorem currentPhase_getElem {reg : Registry} (h : reg.currentPhaseIndex < reg.phases.length) :
    reg.phases[reg.currentPhaseIndex]? = some reg.currentPhase := by
  have h2 := List.getElem?_eq_getElem h
  simp [Registry.currentPhase, h2]

theorem currentPhase_eq_get {reg : Registry} (h : reg.currentPhaseIndex < reg.phases.length) :
    reg.currentPhase = reg.phases.get ⟨reg.currentPhaseIndex, h⟩ := by
  have h2 := List.getElem?_eq_getElem h
  simp [Registry.currentPhase, h2]

theorem currentPhase_mem {reg : Registry} (h : reg.currentPhaseIndex < reg.phases.length) :
    reg.currentPhase ∈ reg.phases := by
  rw [currentPhase_eq_get h]
  exact List.get_mem reg.phases _ _

theorem totalRegistrants_registerEffect (reg : Registry) (p : Address) (h : CommitHash) (a : Nat)
    (hlt : reg.currentPhaseIndex < reg.phases.length) :
    totalRegistrants (registerEffect reg p h a) = totalRegistrants reg + 1 := by
  have hsumset := sum_map_set (fun ph => ph.commitments.length) reg.phases
    reg.currentPhaseIndex
    { reg.currentPhase with
      commitments := reg.currentPhase.commitments ++
        [(p, { participant := p, commitmentHash := h, phaseIndex := reg.currentPhaseIndex, paidAmount := a })] }
    hlt
  rw [← currentPhase_eq_get hlt] at hsumset
  simp only [totalRegistrants, registerEffect]
  simp only [List.length_append, List.length_singleton] at hsumset
  omega

theorem sumPaid_registerEffect (reg : Registry) (p : Address) (h : CommitHash) (a : Nat)
    (hlt : reg.currentPhaseIndex < reg.phases.length) :
    sumPaid (registerEffect reg p h a) = sumPaid reg + a := by
  have hsumset := sum_map_set (fun ph => (ph.commitments.map (fun pr => pr.2.paidAmount)).sum)
    reg.phases reg.currentPhaseIndex
    { reg.currentPhase with
      commitments := reg.currentPhase.commitments ++
        [(p, { participant := p, commitmentHash := h, phaseIndex := reg.currentPhaseIndex, paidAmount := a })] }
    hlt
  rw [← currentPhase_eq_get hlt] at hsumset
  simp only [sumPaid, registerEffect]
  simp only [List.map_append, List.sum_append, List.map_singleton, List.sum_singleton] at hsumset
  omega

/-! Preservation of well-formedness by every engine operation. -/

theorem wf_init (t c d f time : Nat) : RegistryWF (initRegistry t c d f time) := by
  refine ⟨rfl, rfl, ?_, ?_, by simp [initRegistry, totalRegistrants], rfl⟩
  · intro ph hph a
    simp only [initRegistry, List.mem_singleton] at hph
    subst hph
    simp [countAddr]
  · intro ph hph pr hpr
    simp only [initRegistry, List.mem_singleton] at hph
    subst hph
    simp at hpr

theorem wf_registerEffect {reg : Registry} {p : Address} {h : CommitHash} {a : Nat}
    (hwf : RegistryWF reg) (hfee : a = reg.config.registrationFee)
    (hop : reg.currentPhase.sealed = false)
    (hnew : lookupAddr reg.currentPhase.commitments p = none) :
    RegistryWF (registerEffect reg p h a) := by
  obtain ⟨hlen, hseal, hcount, hpaid, hfwd, hsum⟩ := hwf
  have hlt : reg.currentPhaseIndex < reg.phases.length := by omega
  have hlt2 : reg.currentPhaseIndex < ((registerEffect reg p h a).phases).length := by
    simp [registerEffect]
    omega
  have hget : (registerEffect reg p h a).phases[reg.currentPhaseIndex]? =
      some { reg.currentPhase with
        commitments := reg.currentPhase.commitments ++
          [(p, { participant := p, commitmentHash := h, phaseIndex := reg.currentPhaseIndex, paidAmount := a })] } := by
    simp only [registerEffect]
    exact List.getElem?_set_self hlt
  have hcur : (registerEffect reg p h a).currentPhase =
      { reg.currentPhase with
        commitments := reg.currentPhase.commitments ++
          [(p, { participant := p, commitmentHash := h, phaseIndex := reg.currentPhaseIndex, paidAmount := a })] } :=
    currentPhase_eq_of_getElem hget
  have htot : totalRegistrants (registerEffect reg p h a) = totalRegistrants reg + 1 :=
    totalRegistrants_registerEffect reg p h a hlt
  have hspd : sumPaid (registerEffect reg p h a) = sumPaid reg + a :=
    sumPaid_registerEffect reg p h a hlt
  refine ⟨?_, ?_, ?_, ?_, ?_, ?_⟩
  · simp [registerEffect]
    omega
  · rw [hcur]
    exact hop
  · intro ph hph a'
    simp only [registerEffect] at hph
    rcases List.mem_or_eq_of_mem_set hph with hin | heq
    · exact hcount ph hin a'
    · subst heq
      simp only
      rw [countAddr_append]
      by_cases hpa : p = a'
      · subst hpa
        have hz := countAddr_eq_zero_of_lookup_none hnew
        simp [countAddr, hz]
      · have hle := hcount reg.currentPhase (currentPhase_mem hlt) a'
        simp [countAddr, hpa]
        omega
  · intro ph hph pr hpr
    simp only [registerEffect] at hph ⊢
    rcases List.mem_or_eq_of_mem_set hph with hin | heq
    · exact hpaid ph hin pr hpr
    · subst heq
      simp only [List.mem_append, List.mem_singleton] at hpr
      rcases hpr with hin2 | heq2
      · exact hpaid reg.currentPhase (currentPhase_mem hlt) pr hin2
      · subst heq2
        exact hfee
  · have : (registerEffect reg p h a).treasuryBalanceForwarded =
        reg.treasuryBalanceForwarded + a := rfl
    rw [this, htot, Nat.succ_mul]
    have hcfg : (registerEffect reg p h a).config = reg.config := rfl
    rw [hcfg, hfwd, hfee]
  · have : (registerEffect reg p h a).treasuryBalanceForwarded =
        reg.treasuryBalanceForwarded + a := rfl
    rw [this, hspd, hsum]

theorem wf_sealEffect {reg : Registry} (t : Nat) (hwf : RegistryWF reg) :
    RegistryWF (sealEffect reg t) := by
  obtain ⟨hlen, hseal, hcount, hpaid, hfwd, hsum⟩ := hwf
  have hlt : reg.currentPhaseIndex < reg.phases.length := by omega
  have hsetlen : (reg.phases.set reg.currentPhaseIndex { reg.currentPhase with sealed := true }).length
      = reg.currentPhaseIndex + 1 := by
    simp [hlen]
  have hget : (sealEffect reg t).phases[reg.currentPhaseIndex + 1]? =
      some { index := reg.currentPhaseIndex + 1, startTimestamp := t, sealed := false, commitments := [] } := by
    simp only [sealEffect]
    rw [← hsetlen]
    simp
  have hcur : (sealEffect reg t).currentPhase =
      { index := reg.currentPhaseIndex + 1, startTimestamp := t, sealed := false, commitments := [] } :=
    currentPhase_eq_of_getElem hget
  have hsumset := sum_map_set (fun ph => ph.commitments.length) reg.phases
    reg.currentPhaseIndex { reg.currentPhase with sealed := true } hlt
  rw [← currentPhase_eq_get hlt] at hsumset
  have hsumset2 := sum_map_set (fun ph => (ph.commitments.map (fun pr => pr.2.paidAmount)).sum)
    reg.phases reg.currentPhaseIndex { reg.currentPhase with sealed := true } hlt
  rw [← currentPhase_eq_get hlt] at hsumset2
  have hc1 : ({ reg.currentPhase with sealed := true } : Phase).commitments
      = reg.currentPhase.commitments := rfl
  rw [hc1] at hsumset hsumset2
  have htot : totalRegistrants (sealEffect reg t) = totalRegistrants reg := by
    simp only [totalRegistrants, sealEffect, List.map_append, List.sum_append,
      List.map_cons, List.map_nil, List.sum_cons, List.sum_nil, List.length_nil] at hsumset ⊢
    omega
  have hspd : sumPaid (sealEffect reg t) = sumPaid reg := by
    simp only [sumPaid, sealEffect, List.map_append, List.sum_append,
      List.map_cons, List.map_nil, List.sum_cons, List.sum_nil] at hsumset2 ⊢
    omega
  refine ⟨?_, ?_, ?_, ?_, ?_, ?_⟩
  · simp [sealEffect]
    omega
  · rw [hcur]
  · intro ph hph a'
    simp only [sealEffect, List.mem_append, List.mem_singleton] at hph
    rcases hph with hin | heq
    · rcases List.mem_or_eq_of_mem_set hin with hin2 | heq2
      · exact hcount ph hin2 a'
      · subst heq2
        exact hcount reg.currentPhase (currentPhase_mem hlt) a'
    · subst heq
      simp [countAddr]
  · intro ph hph pr hpr
    simp only [sealEffect, List.mem_append, List.mem_singleton] at hph
    rcases hph with hin | heq
    · rcases List.mem_or_eq_of_mem_set hin with hin2 | heq2
      · exact hpaid ph hin2 pr hpr
      · subst heq2
        exact hpaid reg.currentPhase (currentPhase_mem hlt) pr hpr
    · subst heq
      simp at hpr
  · have : (sealEffect reg t).treasuryBalanceForwarded = reg.treasuryBalanceForwarded := rfl
    rw [this, htot]
    exact hfwd
  · have : (sealEffect reg t).treasuryBalanceForwarded = reg.treasuryBalanceForwarded := rfl
    rw [this, hspd]
    exact hsum

theorem wf_applyOp (reg : Registry) (op : RegOp) (hwf : RegistryWF reg) :
    RegistryWF (applyOp reg op) := by
  cases op with
  | register p h a =>
    cases heq : registerCommitment reg p h a with
    | error e =>
      rw [applyOp_register_of_err heq]
      exact hwf
    | ok reg' =>
      obtain ⟨h1, h2, h3, h4⟩ := registerCommitment_ok_inv heq
      rw [applyOp_register_of_ok heq, h4]
      exact wf_registerEffect hwf h1 h2 h3
  | sealPhase c t =>
    cases heq : sealCurrentPhase reg c t with
    | error e =>
      rw [applyOp_seal_of_err heq]
      exact hwf
    | ok reg' =>
      obtain ⟨h1, h2, h3⟩ := sealCurrentPhase_ok_inv heq
      rw [applyOp_seal_of_ok heq, h3]
      exact wf_sealEffect t hwf

theorem reachable_wf (reg : Registry) (h : RegReachable reg) : RegistryWF reg := by
  induction h with
  | init t c d f time => exact wf_init t c d f time
  | step reg op hr ih => exact wf_applyOp reg op ih

/-! Claim theorems. -/

/-- C1: currentPhaseIndex never decreases across any engine operation; a
successful sealCurrentPhase increases it by exactly 1; a successful
registerCommitment leaves it unchanged, and every rejected operation
leaves the whole state unchanged, so sealCurrentPhase is the only mutator
of currentPhaseIndex. -/
theorem cw2000_C1 (reg : Registry) (op : RegOp) :
    reg.currentPhaseIndex ≤ (applyOp reg op).currentPhaseIndex ∧
    (∀ c t reg', sealCurrentPhase reg c t = Except.ok reg' →
      reg'.currentPhaseIndex = reg.currentPhaseIndex + 1) ∧
    (∀ p h a reg', registerCommitment reg p h a = Except.ok reg' →
      reg'.currentPhaseIndex = reg.currentPhaseIndex) ∧
    (∀ p h a e, registerCommitment reg p h a = Except.error e →
      applyOp reg (RegOp.register p h a) = reg) ∧
    (∀ c t e, sealCurrentPhase reg c t = Except.error e →
      applyOp reg (RegOp.sealPhase c t) = reg) := by
  refine ⟨?_, ?_, ?_, ?_, ?_⟩
  · cases op with
    | register p h a =>
      cases heq : registerCommitment reg p h a with
      | error e =>
        rw [applyOp_register_of_err heq]
      | ok reg' =>
        obtain ⟨_, _, _, h4⟩ := registerCommitment_ok_inv heq
        rw [applyOp_register_of_ok heq, h4]
        exact Nat.le_refl _
    | sealPhase c t =>
      cases heq : sealCurrentPhase reg c t with
      | error e =>
        rw [applyOp_seal_of_err heq]
      | ok reg' =>
        obtain ⟨_, _, h3⟩ := sealCurrentPhase_ok_inv heq
        rw [applyOp_seal_of_ok heq, h3]
        exact Nat.le_succ _
  · intro c t reg' hok
    obtain ⟨_, _, h3⟩ := sealCurrentPhase_ok_inv hok
    rw [h3]
    rfl
  · intro p h a reg' hok
    obtain ⟨_, _, _, h4⟩ := registerCommitment_ok_inv hok
    rw [h4]
    rfl
  · intro p h a e herr
    exact applyOp_register_of_err herr
  · intro c t e herr
    exact applyOp_seal_of_err herr

/-- Witness for C1, on the demo registry: a successful seal advances the
index by one, a successful and a rejected registration and a rejected
seal leave it untouched. -/
theorem cw2000_C1_witness :
    demoReg.currentPhaseIndex ≤ (applyOp demoReg (RegOp.sealPhase 3 10)).currentPhaseIndex ∧
    (sealEffect demoReg 10).currentPhaseIndex = demoReg.currentPhaseIndex + 1 ∧
    (registerEffect demoReg 4 9 5).currentPhaseIndex = demoReg.currentPhaseIndex ∧
    applyOp demoReg (RegOp.register 4 9 3) = demoReg ∧
    applyOp demoReg (RegOp.sealPhase 8 99) = demoReg :=
  ⟨(cw2000_C1 demoReg (RegOp.sealPhase 3 10)).1,
   (cw2000_C1 demoReg (RegOp.sealPhase 3 10)).2.1 3 10 (sealEffect demoReg 10) rfl,
   (cw2000_C1 demoReg (RegOp.register 4 9 5)).2.2.1 4 9 5 (registerEffect demoReg 4 9 5) rfl,
   (cw2000_C1 demoReg (RegOp.register 4 9 3)).2.2.2.1 4 9 3 RegistryError.IncorrectFee rfl,
   (cw2000_C1 demoReg (RegOp.sealPhase 8 99)).2.2.2.2 8 99 RegistryError.Unauthorized rfl⟩

/-- C4: in every state, a registerCommitment whose paid amount differs
from the configured registration fee (under- or over-payment alike) is
rejected with IncorrectFee and the state after the rejected call is
exactly the state before it. -/
theorem cw2000_C4 (reg : Registry) (p : Address) (h : CommitHash) (a : Nat)
    (hne : a ≠ reg.config.registrationFee) :
    registerCommitment reg p h a = Except.error RegistryError.IncorrectFee ∧
    applyOp reg (RegOp.register p h a) = reg :=
  have herr := registerCommitment_incorrectFee hne
  ⟨herr, applyOp_register_of_err herr⟩

/-- Witness for C4: on the demo registry underpayment (3 of 5) and
overpayment (8 of 5) are both rejected with IncorrectFee and change
nothing. -/
theorem cw2000_C4_witness :
    (registerCommitment demoReg 4 9 3 = Except.error RegistryError.IncorrectFee ∧
      applyOp demoReg (RegOp.register 4 9 3) = demoReg) ∧
    (registerCommitment demoReg 4 9 8 = Except.error RegistryError.IncorrectFee ∧
      applyOp demoReg (RegOp.register 4 9 8) = demoReg) :=
  ⟨cw2000_C4 demoReg 4 9 3 (by decide), cw2000_C4 demoReg 4 9 8 (by decide)⟩

/-- C5: sealCurrentPhase succeeds exactly when the caller is the
controller and at least phaseDurationSeconds have elapsed since the
current phase started; a non-controller is always rejected with
Unauthorized and the phase index does not advance, and a controller
calling early is always rejected with PhaseNotYetDue. -/
theorem cw2000_C5 (reg : Registry) (caller now : Nat) :
    ((∃ reg', sealCurrentPhase reg caller now = Except.ok reg') ↔
      (caller = reg.config.controller ∧
        reg.currentPhase.startTimestamp + reg.config.phaseDurationSeconds ≤ now)) ∧
    (caller ≠ reg.config.controller →
      sealCurrentPhase reg caller now = Except.error RegistryError.Unauthorized ∧
      (applyOp reg (RegOp.sealPhase caller now)).currentPhaseIndex = reg.currentPhaseIndex) ∧
    (caller = reg.config.controller →
      now < reg.currentPhase.startTimestamp + reg.config.phaseDurationSeconds →
      sealCurrentPhase reg caller now = Except.error RegistryError.PhaseNotYetDue) := by
  refine ⟨⟨?_, ?_⟩, ?_, ?_⟩
  · rintro ⟨reg', hok⟩
    obtain ⟨h1, h2, _⟩ := sealCurrentPhase_ok_inv hok
    exact ⟨h1, h2⟩
  · rintro ⟨h1, h2⟩
    exact ⟨sealEffect reg now, sealCurrentPhase_ok h1 h2⟩
  · intro hne
    have herr : sealCurrentPhase reg caller now = Except.error RegistryError.Unauthorized :=
      sealCurrentPhase_unauthorized hne
    exact ⟨herr, by rw [applyOp_seal_of_err herr]⟩
  · intro hc ht
    exact sealCurrentPhase_notYetDue hc ht

/-- Witness for C5: on the demo registry a non-controller caller is
rejected with Unauthorized without advancing the index, and the
controller calling before the duration has elapsed is rejected with
PhaseNotYetDue. -/
theorem cw2000_C5_witness :
    (sealCurrentPhase demoReg 8 99 = Except.error RegistryError.Unauthorized ∧
      (applyOp demoReg (RegOp.sealPhase 8 99)).currentPhaseIndex = demoReg.currentPhaseIndex) ∧
    sealCurrentPhase demoReg 3 9 = Except.error RegistryError.PhaseNotYetDue :=
  ⟨(cw2000_C5 demoReg 8 99).2.1 (by decide),
   (cw2000_C5 demoReg 3 9).2.2 (by decide) (by decide)⟩

theorem getCommitment_congr {reg reg' : Registry} {p : Nat}
    (h : reg'.phases[p]? = reg.phases[p]?) (a : Address) :
    getCommitment reg' p a = getCommitment reg p a := by
  unfold getCommitment
  rw [h]

theorem getPhaseRegistrantCount_congr {reg reg' : Registry} {p : Nat}
    (h : reg'.phases[p]? = reg.phases[p]?) :
    getPhaseRegistrantCount reg' p = getPhaseRegistrantCount reg p := by
  unfold getPhaseRegistrantCount
  rw [h]

/-- C2: in every reachable state no participant address owns two
commitment records in any phase, and a second registration attempt by an
already-registered participant of the current phase, paying the exact fee,
is rejected with DuplicateRegistration and overwrites nothing. -/
theorem cw2000_C2 (reg : Registry) (hr : RegReachable reg) :
    (∀ ph ∈ reg.phases, ∀ a, countAddr ph.commitments a ≤ 1) ∧
    (∀ p h a, (lookupAddr reg.currentPhase.commitments p).isSome = true →
      a = reg.config.registrationFee →
      registerCommitment reg p h a = Except.error RegistryError.DuplicateRegistration ∧
      applyOp reg (RegOp.register p h a) = reg) := by
  obtain ⟨hlen, hseal, hcount, hpaid, hfwd, hsum⟩ := reachable_wf reg hr
  refine ⟨hcount, ?_⟩
  intro p h a hdup hfee
  have herr : registerCommitment reg p h a = Except.error RegistryError.DuplicateRegistration :=
    registerCommitment_duplicate hfee hseal hdup
  exact ⟨herr, applyOp_register_of_err herr⟩

/-- Witness for C2: in the demo registry where participant 4 already
registered in phase 0, a second registration by 4 with a fresh hash and
the exact fee is rejected with DuplicateRegistration and changes
nothing. -/
theorem cw2000_C2_witness :
    registerCommitment demoReg1 4 11 5 = Except.error RegistryError.DuplicateRegistration ∧
    applyOp demoReg1 (RegOp.register 4 11 5) = demoReg1 :=
  (cw2000_C2 demoReg1
    (RegReachable.step demoReg (RegOp.register 4 9 5) (RegReachable.init 7 3 10 5 0))).2
    4 11 5 (by decide) rfl

/-- C6: in every reachable state the total forwarded to the treasury
equals the total registrant count times the registration fee and equals
the sum of all recorded paid amounts; each successful registerCommitment
forwards exactly its paid amount (the exact fee) and records exactly one
commitment in the same atomic step, and each rejected one records and
forwards nothing. -/
theorem cw2000_C6 (reg : Registry) (hr : RegReachable reg) :
    reg.treasuryBalanceForwarded = totalRegistrants reg * reg.config.registrationFee ∧
    reg.treasuryBalanceForwarded = sumPaid reg ∧
    (∀ p h a reg', registerCommitment reg p h a = Except.ok reg' →
      reg'.treasuryBalanceForwarded = reg.treasuryBalanceForwarded + a ∧
      totalRegistrants reg' = totalRegistrants reg + 1 ∧
      a = reg.config.registrationFee) ∧
    (∀ p h a e, registerCommitment reg p h a = Except.error e →
      applyOp reg (RegOp.register p h a) = reg) := by
  obtain ⟨hlen, hseal, hcount, hpaid, hfwd, hsum⟩ := reachable_wf reg hr
  have hlt : reg.currentPhaseIndex < reg.phases.length := by omega
  refine ⟨hfwd, hsum, ?_, ?_⟩
  · intro p h a reg' hok
    obtain ⟨h1, h2, h3, h4⟩ := registerCommitment_ok_inv hok
    subst h4
    exact ⟨rfl, totalRegistrants_registerEffect reg p h a hlt, h1⟩
  · intro p h a e herr
    exact applyOp_register_of_err herr

/-- Witness for C6: the accounting identities hold in the freshly created
demo registry and the first successful registration forwards exactly its
fee while recording exactly one commitment. -/
theorem cw2000_C6_witness :
    demoReg.treasuryBalanceForwarded = totalRegistrants demoReg * demoReg.config.registrationFee ∧
    (registerEffect demoReg 4 9 5).treasuryBalanceForwarded = demoReg.treasuryBalanceForwarded + 5 ∧
    totalRegistrants (registerEffect demoReg 4 9 5) = totalRegistrants demoReg + 1 :=
  have hc6 := cw2000_C6 demoReg (RegReachable.init 7 3 10 5 0)
  have hreg := hc6.2.2.1 4 9 5 (registerEffect demoReg 4 9 5) rfl
  ⟨hc6.1, hreg.1, hreg.2.1⟩

/-- C7: getCommitment is a pure read: in every reachable state it returns
exactly the stored commitment hash of a participant registered in the
queried phase, returns the explicit not-present result when the
participant never registered there, and returns some hash only when a
matching record exists, so no sentinel value can be conflated with a
stored hash. -/
theorem cw2000_C7 (reg : Registry) (hr : RegReachable reg) (p : Nat) (a : Address) :
    (∀ ph r, reg.phases[p]? = some ph → (a, r) ∈ ph.commitments →
      getCommitment reg p a = some r.commitmentHash) ∧
    ((∀ ph r, reg.phases[p]? = some ph → (a, r) ∉ ph.commitments) →
      getCommitment reg p a = none) ∧
    (∀ h, getCommitment reg p a = some h →
      ∃ ph r, reg.phases[p]? = some ph ∧ (a, r) ∈ ph.commitments ∧ r.commitmentHash = h) := by
  obtain ⟨hlen, hseal, hcount, hpaid, hfwd, hsum⟩ := reachable_wf reg hr
  refine ⟨?_, ?_, ?_⟩
  · intro ph r hget hmem
    have hle := hcount ph (List.getElem?_mem hget) a
    have hlook := lookupAddr_of_mem_of_count_le_one hmem hle
    simp [getCommitment, hget, hlook]
  · intro hnone
    cases hq : reg.phases[p]? with
    | none => simp [getCommitment, hq]
    | some ph =>
      have hl := lookupAddr_none_of_not_mem (fun r => hnone ph r hq)
      simp [getCommitment, hq, hl]
  · intro h hsome
    unfold getCommitment at hsome
    cases hq : reg.phases[p]? with
    | none =>
      rw [hq] at hsome
      simp at hsome
    | some ph =>
      rw [hq] at hsome
      simp only [Option.map_eq_some'] at hsome
      obtain ⟨r, hl, hh⟩ := hsome
      exact ⟨ph, r, rfl, lookupAddr_mem hl, hh⟩

/-- Witness for C7: in the demo registry after the first registration,
the stored record of participant 4 in phase 0 is read back as hash 9, and
the unregistered participant 6 reads back as not present. -/
theorem cw2000_C7_witness :
    getCommitment demoReg1 0 4 = some 9 ∧ getCommitment demoReg1 0 6 = none :=
  have hreach : RegReachable demoReg1 :=
    RegReachable.step demoReg (RegOp.register 4 9 5) (RegReachable.init 7 3 10 5 0)
  ⟨(cw2000_C7 demoReg1 hreach 0 4).1
      { index := 0, startTimestamp := 0, sealed := false,
        commitments := [(4, { participant := 4, commitmentHash := 9, phaseIndex := 0, paidAmount := 5 })] }
      { participant := 4, commitmentHash := 9, phaseIndex := 0, paidAmount := 5 }
      (by decide) (by decide),
   (cw2000_C7 demoReg1 hreach 0 6).2.1 (by
      intro ph r hget hmem
      have h0 : demoReg1.phases[0]? = some
          { index := 0, startTimestamp := 0, sealed := false,
            commitments := [(4, { participant := 4, commitmentHash := 9, phaseIndex := 0, paidAmount := 5 })] } := by
        decide
      rw [h0] at hget
      injection hget with hph
      subst hph
      simp at hmem)⟩

/-- C8: getPhaseRegistrantCount is a total pure read: in every reachable
state it returns the registrant count of an existing phase, and 0 for any
phase index with no phase record, in particular for every future phase
index beyond the current one. -/
theorem cw2000_C8 (reg : Registry) (hr : RegReachable reg) (p : Nat) :
    (∀ ph, reg.phases[p]? = some ph → getPhaseRegistrantCount reg p = ph.commitments.length) ∧
    (reg.phases[p]? = none → getPhaseRegistrantCount reg p = 0) ∧
    (reg.currentPhaseIndex < p → getPhaseRegistrantCount reg p = 0) := by
  obtain ⟨hlen, hseal, hcount, hpaid, hfwd, hsum⟩ := reachable_wf reg hr
  refine ⟨?_, ?_, ?_⟩
  · intro ph hget
    unfold getPhaseRegistrantCount
    rw [hget]
  · intro hnone
    unfold getPhaseRegistrantCount
    rw [hnone]
  · intro hgt
    have hnone : reg.phases[p]? = none := List.getElem?_eq_none (by omega)
    unfold getPhaseRegistrantCount
    rw [hnone]

/-- Witness for C8: in the demo registry after one registration, phase 0
has one registrant and the not-yet-created phase 5 reads as 0. -/
theorem cw2000_C8_witness :
    getPhaseRegistrantCount demoReg1 0 = 1 ∧ getPhaseRegistrantCount demoReg1 5 = 0 :=
  have hreach : RegReachable demoReg1 :=
    RegReachable.step demoReg (RegOp.register 4 9 5) (RegReachable.init 7 3 10 5 0)
  ⟨by
    have h1 := (cw2000_C8 demoReg1 hreach 0).1
      { index := 0, startTimestamp := 0, sealed := false,
        commitments := [(4, { participant := 4, commitmentHash := 9, phaseIndex := 0, paidAmount := 5 })] }
      (by decide)
    simpa using h1,
   (cw2000_C8 demoReg1 hreach 5).2.2 (by decide)⟩

/-- C3: once a phase is sealed it is permanently frozen: in every
reachable state, applying any further engine operation leaves the sealed
phase record itself, every getCommitment read of it, and its
getPhaseRegistrantCount unchanged. -/
theorem cw2000_C3 (reg : Registry) (hr : RegReachable reg) (p : Nat) (ph : Phase)
    (hget : reg.phases[p]? = some ph) (hsealed : ph.sealed = true) (op : RegOp) :
    (∀ a, getCommitment (applyOp reg op) p a = getCommitment reg p a) ∧
    getPhaseRegistrantCount (applyOp reg op) p = getPhaseRegistrantCount reg p ∧
    (applyOp reg op).phases[p]? = some ph := by
  obtain ⟨hlen, hseal, hcount, hpaid, hfwd, hsum⟩ := reachable_wf reg hr
  have hlt : reg.currentPhaseIndex < reg.phases.length := by omega
  have hplt : p < reg.phases.length := by
    by_contra hc
    rw [List.getElem?_eq_none (by omega)] at hget
    cases hget
  have hne : p ≠ reg.currentPhaseIndex := by
    intro hpe
    subst hpe
    have h2 := (currentPhase_getElem hlt).symm.trans hget
    injection h2 with h3
    rw [← h3, hseal] at hsealed
    cases hsealed
  have hframe : (applyOp reg op).phases[p]? = reg.phases[p]? := by
    cases op with
    | register q h a =>
      cases heq : registerCommitment reg q h a with
      | error e =>
        rw [applyOp_register_of_err heq]
      | ok reg' =>
        obtain ⟨_, _, _, h4⟩ := registerCommitment_ok_inv heq
        rw [applyOp_register_of_ok heq, h4]
        exact List.getElem?_set_ne (Ne.symm hne)
    | sealPhase c t =>
      cases heq : sealCurrentPhase reg c t with
      | error e =>
        rw [applyOp_seal_of_err heq]
      | ok reg' =>
        obtain ⟨_, _, h3⟩ := sealCurrentPhase_ok_inv heq
        rw [applyOp_seal_of_ok heq, h3]
        have hplt2 : p < (reg.phases.set reg.currentPhaseIndex
            { reg.currentPhase with sealed := true }).length := by
          rw [List.length_set]
          exact hplt
        calc ((reg.phases.set reg.currentPhaseIndex { reg.currentPhase with sealed := true })
                ++ [{ index := reg.currentPhaseIndex + 1, startTimestamp := t,
                      sealed := false, commitments := [] }])[p]?
            = (reg.phases.set reg.currentPhaseIndex
                { reg.currentPhase with sealed := true })[p]? :=
              List.getElem?_append_left hplt2
          _ = reg.phases[p]? := List.getElem?_set_ne (Ne.symm hne)
  exact ⟨getCommitment_congr hframe, getPhaseRegistrantCount_congr hframe, hframe.trans hget⟩

/-- Witness for C3: in the demo registry with phase 0 sealed, a later
registration in phase 1 leaves the reads of the sealed phase 0
unchanged. -/
theorem cw2000_C3_witness :
    getCommitment (applyOp demoReg2 (RegOp.register 6 12 5)) 0 4 = getCommitment demoReg2 0 4 ∧
    getPhaseRegistrantCount (applyOp demoReg2 (RegOp.register 6 12 5)) 0 =
      getPhaseRegistrantCount demoReg2 0 :=
  have hreach : RegReachable demoReg2 :=
    RegReachable.step demoReg1 (RegOp.sealPhase 3 10)
      (RegReachable.step demoReg (RegOp.register 4 9 5) (RegReachable.init 7 3 10 5 0))
  have hc3 := cw2000_C3 demoReg2 hreach 0
    { index := 0, startTimestamp := 0, sealed := true,
      commitments := [(4, { participant := 4, commitmentHash := 9, phaseIndex := 0, paidAmount := 5 })] }
    (by decide) (by decide) (RegOp.register 6 12 5)
  ⟨hc3.1 4, hc3.2.1⟩

/-- C9: both script paths that build a registerCommitment transaction,
the --register CLI path and the deploy-and-demo path, attach exactly
REGISTRATION_FEE_WEI = 1000000000000000 wei as the payment value. -/
theorem cw2000_C9 (commitment_hex : String) :
    (main_register_tx commitment_hex).value = 1000000000000000 ∧
    demo_register_tx.value = 1000000000000000 ∧
    REGISTRATION_FEE_WEI = 1000000000000000 :=
  ⟨rfl, rfl, rfl⟩

/-- C10 counterexample: a receipt with status 1 but no contract address
makes deploy fail its assertion instead of returning an address, so the
claim that deploy returns the deployed contract address whenever the
status is 1 is false as stated. -/
theorem cw2000_C10_counterexample :
    deploy_receipt_result { status := 1, contractAddress := none } =
      Except.error PyError.AssertionError ∧
    ¬ ∃ addr, deploy_receipt_result { status := 1, contractAddress := none } =
      Except.ok addr := by
  constructor
  · rfl
  · rintro ⟨addr, hcontra⟩
    simp [deploy_receipt_result] at hcontra

/-- C10 (amended): each mutating shim function raises RuntimeError exactly
when the awaited receipt has status other than 1; on status 1,
register_commitment and seal_current_phase return the receipt, and deploy
returns the contract address provided the receipt carries one, failing
its assertion (an AssertionError, not a RuntimeError) otherwise. -/
theorem cw2000_C10 (r : TxReceipt) :
    ((∃ m, deploy_receipt_result r = Except.error (PyError.RuntimeError m)) ↔ r.status ≠ 1) ∧
    ((∃ m, register_commitment_receipt_result r = Except.error (PyError.RuntimeError m)) ↔
      r.status ≠ 1) ∧
    ((∃ m, seal_current_phase_receipt_result r = Except.error (PyError.RuntimeError m)) ↔
      r.status ≠ 1) ∧
    (r.status = 1 →
      register_commitment_receipt_result r = Except.ok r ∧
      seal_current_phase_receipt_result r = Except.ok r ∧
      (∀ addr, r.contractAddress = some addr → deploy_receipt_result r = Except.ok addr) ∧
      (r.contractAddress = none → deploy_receipt_result r = Except.error PyError.AssertionError)) := by
  by_cases hs : r.status = 1
  · refine ⟨?_, ?_, ?_, ?_⟩
    · constructor
      · rintro ⟨m, hm⟩
        unfold deploy_receipt_result at hm
        rw [if_neg (by omega)] at hm
        cases hca : r.contractAddress with
        | none => rw [hca] at hm; cases hm
        | some addr => rw [hca] at hm; cases hm
      · intro hc
        exact absurd hs hc
    · constructor
      · rintro ⟨m, hm⟩
        unfold register_commitment_receipt_result at hm
        rw [if_neg (by omega)] at hm
        cases hm
      · intro hc
        exact absurd hs hc
    · constructor
      · rintro ⟨m, hm⟩
        unfold seal_current_phase_receipt_result at hm
        rw [if_neg (by omega)] at hm
        cases hm
      · intro hc
        exact absurd hs hc
    · intro _
      refine ⟨?_, ?_, ?_, ?_⟩
      · unfold register_commitment_receipt_result
        rw [if_neg (by omega)]
      · unfold seal_current_phase_receipt_result
        rw [if_neg (by omega)]
      · intro addr hca
        unfold deploy_receipt_result
        rw [if_neg (by omega), hca]
      · intro hca
        unfold deploy_receipt_result
        rw [if_neg (by omega), hca]
  · refine ⟨?_, ?_, ?_, fun hc => absurd hc hs⟩
    · exact ⟨fun _ => hs, fun _ => ⟨"Deployment transaction reverted", by
        unfold deploy_receipt_result
        rw [if_pos hs]⟩⟩
    · exact ⟨fun _ => hs, fun _ => ⟨"registerCommitment reverted", by
        unfold register_commitment_receipt_result
        rw [if_pos hs]⟩⟩
    · exact ⟨fun _ => hs, fun _ => ⟨"sealCurrentPhase reverted", by
        unfold seal_current_phase_receipt_result
        rw [if_pos hs]⟩⟩

/-- Witness for C10: a status-1 receipt with address 42 makes all three
shims succeed, deploy returning the address; a status-0 receipt makes
register_commitment raise RuntimeError. -/
theorem cw2000_C10_witness :
    register_commitment_receipt_result { status := 1, contractAddress := some 42 } =
      Except.ok { status := 1, contractAddress := some 42 } ∧
    seal_current_phase_receipt_result { status := 1, contractAddress := some 42 } =
      Except.ok { status := 1, contractAddress := some 42 } ∧
    deploy_receipt_result { status := 1, contractAddress := some 42 } = Except.ok 42 ∧
    (∃ m, register_commitment_receipt_result { status := 0, contractAddress := none } =
      Except.error (PyError.RuntimeError m)) :=
  have h1 := (cw2000_C10 { status := 1, contractAddress := some 42 }).2.2.2 rfl
  have h0 := (cw2000_C10 { status := 0, contractAddress := none }).2.1.mpr (by decide)
  ⟨h1.1, h1.2.1, h1.2.2.1 42 rfl, h0⟩
